import Mathlib

/-!
Verification of the dsa_web repository against its specification.

Part 1 embeds the React frontend that is present under `src/frontend`:
the route table of `App.tsx`, the Redux store of `store/index.ts`, and
the navigation link targets of `components/Layout/Header.tsx`.

Part 2 models the real-time intercom signaling and alarm dispatch core.
That subsystem is described by the specification but has no
implementation in the repository, so its operations are modelled from
the specification's component contracts (Presence Registry, Tenant
Router, Session Coordinator, Alarm Dispatcher) and the claims are
settled against that model.
-/

namespace Frontend

/-- The six page components imported and routed by `App.tsx`. -/
inductive Page
  | home
  | products
  | about
  | news
  | solutions
  | contact
deriving DecidableEq, Repr

/-- The `<Routes>` table of `App.tsx`: each `<Route path=... element=...>`
pair, in source order. -/
def appRoutes : List (String × Page) :=
  [("/", Page.home),
   ("/products", Page.products),
   ("/about", Page.about),
   ("/news", Page.news),
   ("/solutions", Page.solutions),
   ("/contact", Page.contact)]

/-- Split a character list at every slash. -/
def splitSlash : List Char → List (List Char)
  | [] => [[]]
  | c :: cs =>
    if c = '/' then [] :: splitSlash cs
    else
      match splitSlash cs with
      | [] => [[c]]
      | s :: rest => (c :: s) :: rest

/-- ASCII lower-casing of one character. -/
def charLower (c : Char) : Char :=
  if 'A' ≤ c ∧ c ≤ 'Z' then Char.ofNat (c.toNat + 32) else c

/-- URL path normalization as performed by React Router's matcher:
split on `/`, drop empty segments (leading, trailing, doubled slashes),
compare case-insensitively. -/
def pathSegments (p : String) : List String :=
  (((splitSlash p.toList).filter (fun s => !s.isEmpty)).map
    (fun s => s.map charLower)).map List.asString

/-- A flat static route pattern (no dynamic segment, no splat, as in
`App.tsx`) matches a URL exactly when their normalized segments agree. -/
def routeMatches (pattern url : String) : Bool :=
  pathSegments pattern == pathSegments url

/-- Rendering of the `<Routes>` element on a URL: the first route whose
path matches is rendered; if no route matches, nothing is rendered. -/
def renderRoutes (routes : List (String × Page)) (url : String) : Option Page :=
  (routes.find? (fun r => routeMatches r.1 url)).map Prod.snd

theorem renderRoutes_mem {routes : List (String × Page)} {u : String} {pg : Page}
    (h : renderRoutes routes u = some pg) :
    ∃ r ∈ routes, routeMatches r.1 u = true ∧ r.2 = pg := by
  unfold renderRoutes at h
  cases hf : routes.find? (fun r => routeMatches r.1 u) with
  | none => rw [hf] at h; simp at h
  | some r =>
    rw [hf] at h
    refine ⟨r, List.mem_of_find?_eq_some hf, ?_, ?_⟩
    · simpa using List.find?_some hf
    · simpa using h

end Frontend

namespace Frontend

/-- C8 part A is stated on the six literal paths; part B says any URL that
renders a page normalizes to one of the six routes. -/
theorem router_maps_six_paths :
    (renderRoutes appRoutes "/" = some Page.home ∧
     renderRoutes appRoutes "/products" = some Page.products ∧
     renderRoutes appRoutes "/about" = some Page.about ∧
     renderRoutes appRoutes "/news" = some Page.news ∧
     renderRoutes appRoutes "/solutions" = some Page.solutions ∧
     renderRoutes appRoutes "/contact" = some Page.contact) ∧
    ∀ u pg, renderRoutes appRoutes u = some pg →
      ((pathSegments u = [] ∧ pg = Page.home) ∨
       (pathSegments u = ["products"] ∧ pg = Page.products) ∨
       (pathSegments u = ["about"] ∧ pg = Page.about) ∨
       (pathSegments u = ["news"] ∧ pg = Page.news) ∨
       (pathSegments u = ["solutions"] ∧ pg = Page.solutions) ∨
       (pathSegments u = ["contact"] ∧ pg = Page.contact)) := by
  constructor
  · refine ⟨by decide, by decide, by decide, by decide, by decide, by decide⟩
  · intro u pg h
    obtain ⟨r, hr, hm, hpg⟩ := renderRoutes_mem h
    have hseg : pathSegments r.1 = pathSegments u := by
      simpa [routeMatches] using hm
    subst hpg
    simp only [appRoutes, List.mem_cons, List.not_mem_nil, or_false] at hr
    rcases hr with rfl | rfl | rfl | rfl | rfl | rfl
    · exact Or.inl ⟨by rw [← hseg]; decide, rfl⟩
    · exact Or.inr (Or.inl ⟨by rw [← hseg]; decide, rfl⟩)
    · exact Or.inr (Or.inr (Or.inl ⟨by rw [← hseg]; decide, rfl⟩))
    · exact Or.inr (Or.inr (Or.inr (Or.inl ⟨by rw [← hseg]; decide, rfl⟩)))
    · exact Or.inr (Or.inr (Or.inr (Or.inr (Or.inl ⟨by rw [← hseg]; decide, rfl⟩))))
    · exact Or.inr (Or.inr (Or.inr (Or.inr (Or.inr ⟨by rw [← hseg]; decide, rfl⟩))))

/-- Witness for C8: instantiates the quantified part at the URL `/news`. -/
theorem router_maps_six_paths_witness :
    (pathSegments "/news" = [] ∧ Page.news = Page.home) ∨
    (pathSegments "/news" = ["products"] ∧ Page.news = Page.products) ∨
    (pathSegments "/news" = ["about"] ∧ Page.news = Page.about) ∨
    (pathSegments "/news" = ["news"] ∧ Page.news = Page.news) ∨
    (pathSegments "/news" = ["solutions"] ∧ Page.news = Page.solutions) ∨
    (pathSegments "/news" = ["contact"] ∧ Page.news = Page.contact) :=
  router_maps_six_paths.2 "/news" Page.news (by decide)

/-- A Redux action: the store only ever sees the `type` tag. -/
structure ReduxAction where
  ty : String
deriving DecidableEq, Repr

/-- One state slice's value (opaque to the empty reducer map). -/
abbrev SliceVal := String

/-- The root state of the store: one value per registered slice key. -/
abbrev StoreState := List (String × SliceVal)

def lookupSlice (st : StoreState) (k : String) : Option SliceVal :=
  (st.find? (fun p => p.1 == k)).map Prod.snd

/-- Redux `combineReducers`: computes each slice's next value; if the
key count matches and no slice changed, the previous state object is
returned unchanged, otherwise the freshly built one. -/
def combination (reducers : List (String × (Option SliceVal → ReduxAction → SliceVal)))
    (st : StoreState) (act : ReduxAction) : StoreState :=
  let next := reducers.map (fun kr => (kr.1, kr.2 (lookupSlice st kr.1) act))
  if reducers.length == st.length && next == st then st else next

/-- The reducer map passed to `configureStore` in `store/index.ts`:
empty (the comment there says reducers may be added here). -/
def storeReducers : List (String × (Option SliceVal → ReduxAction → SliceVal)) := []

/-- The store-initialization action dispatched by `createStore`. -/
def initAction : ReduxAction := ⟨"@@redux/INIT"⟩

/-- The state the exported store holds right after `configureStore`:
the root reducer applied to the absent preloaded state. -/
def storeInitialState : StoreState := combination storeReducers [] initAction

/-- The store state after dispatching a list of actions in order. -/
def runStore (acts : List ReduxAction) : StoreState :=
  acts.foldl (fun st a => combination storeReducers st a) storeInitialState

theorem combination_nil_of_nil (a : ReduxAction) : combination storeReducers [] a = [] := by
  simp [combination, storeReducers]

theorem runStore_nil_all (acts : List ReduxAction) : runStore acts = [] := by
  have h0 : storeInitialState = [] := combination_nil_of_nil initAction
  unfold runStore
  rw [h0]
  induction acts with
  | nil => rfl
  | cons a rest ih => rw [List.foldl_cons, combination_nil_of_nil a]; exact ih

end Frontend

namespace Frontend

/-- C9: the exported store has an empty reducer map, so its state is the
constant empty object and every dispatch leaves it unchanged. -/
theorem store_dispatch_noop (acts : List ReduxAction) (a : ReduxAction) :
    runStore acts = storeInitialState ∧
    combination storeReducers (runStore acts) a = runStore acts := by
  refine ⟨?_, ?_⟩
  · rw [runStore_nil_all, ← combination_nil_of_nil initAction]; rfl
  · rw [runStore_nil_all]; exact combination_nil_of_nil a

/-- The dropdown groups of `productMenuItems` in `Header.tsx`: each group
key with the (item key, link target) pairs of its children. -/
def productMenuItems : List (String × List (String × String)) :=
  [("intercom-products",
     [("digital-intercom", "/products/digital-intercom"),
      ("analog-intercom", "/products/analog-intercom"),
      ("ip-intercom", "/products/ip-intercom")]),
   ("smart-home",
     [("smart-locks", "/products/smart-locks"),
      ("smart-sensors", "/products/smart-sensors"),
      ("home-automation", "/products/home-automation")]),
   ("security-monitoring",
     [("cameras", "/products/cameras"),
      ("nvr-systems", "/products/nvr-systems"),
      ("alarm-systems", "/products/alarm-systems")]),
   ("access-control",
     [("face-recognition", "/products/face-recognition"),
      ("card-access", "/products/card-access"),
      ("mobile-access", "/products/mobile-access")])]

/-- The `aboutMenuItems` dropdown of `Header.tsx`. -/
def aboutMenuItems : List (String × String) :=
  [("company-profile", "/about/profile"),
   ("company-history", "/about/history"),
   ("company-culture", "/about/culture"),
   ("company-honors", "/about/honors"),
   ("strategic-cooperation", "/about/cooperation")]

/-- The `solutionMenuItems` dropdown of `Header.tsx`. -/
def solutionMenuItems : List (String × String) :=
  [("smart-community", "/solutions/smart-community"),
   ("smart-building", "/solutions/smart-building"),
   ("smart-hospital", "/solutions/smart-hospital"),
   ("smart-hotel", "/solutions/smart-hotel"),
   ("smart-office", "/solutions/smart-office")]

/-- The direct (non-dropdown) `<Link to=...>` targets of
`navigationItems` in `Header.tsx`. -/
def navigationDirectLinks : List String :=
  ["/", "/news", "/cases", "/service", "/contact"]

/-- Every link target rendered by the Header navigation. -/
def headerLinkTargets : List String :=
  navigationDirectLinks
    ++ aboutMenuItems.map Prod.snd
    ++ (productMenuItems.map (fun g => g.2.map Prod.snd)).flatten
    ++ solutionMenuItems.map Prod.snd

/-- The Header link targets named by C10: `/cases`, `/service`, and the
product/about/solution dropdown sub-paths. -/
def headerDeadPaths : List String :=
  ["/cases", "/service"]
    ++ (productMenuItems.map (fun g => g.2.map Prod.snd)).flatten
    ++ aboutMenuItems.map Prod.snd
    ++ solutionMenuItems.map Prod.snd

end Frontend

namespace Frontend

/-- C10: every one of those paths is a rendered Header link target, and
the App route table matches none of them, so the Routes element renders
no page for each. -/
theorem header_dead_links :
    (headerDeadPaths.all (fun p => headerLinkTargets.contains p)) = true ∧
    (headerDeadPaths.all (fun p => (renderRoutes appRoutes p).isNone)) = true := by
  constructor
  · decide
  · decide

end Frontend


namespace Intercom

/-- Modelled from the spec: the signaling core has no implementation in
the repository, so the whole `Intercom` namespace is a model of section
4 of the specification. Endpoint kinds: a connected door/intercom
device or an operator client. -/
inductive EpKind
  | device
  | operator
deriving DecidableEq, Repr

/-- Modelled from the spec: a Presence Registry entry (§3 Endpoint).
The connection handle owned by the Transport Gateway is not part of the
core state and is omitted. -/
structure Endpoint where
  epId : String
  tenant : String
  kind : EpKind
  caps : List String
  lastHb : Nat
deriving DecidableEq, Repr

/-- Modelled from the spec: the session state machine states (§4.3). -/
inductive SessState
  | initiating
  | ringing
  | accepted
  | active
  | terminated
  | failed
deriving DecidableEq, Repr

/-- A state from which no further transition is allowed. -/
def SessState.isTerminal : SessState → Bool
  | SessState.terminated => true
  | SessState.failed => true
  | _ => false

/-- Modelled from the spec: one intercom call (§3 Session). `invited`
is the list of callees an invite was dispatched to; `pending` the ones
that have neither accepted nor rejected yet. Creation time and timers
are omitted (no claim concerns the timeout path). -/
structure Session where
  sid : Nat
  tenant : String
  caller : String
  invited : List String
  pending : List String
  acceptedBy : Option String
  st : SessState
  offer : String
  answer : Option String
  reason : Option String
deriving DecidableEq, Repr

/-- Modelled from the spec: one reported incident (§3 Alarm Event). -/
structure AlarmEvent where
  evId : Nat
  tenant : String
  source : String
  severity : String
  payload : String
  acks : List String
deriving DecidableEq, Repr

/-- Modelled from the spec: a standing subscription of an operator
endpoint to a tenant's alarms (§3 Subscription; category/device-group
filtering is collapsed to the tenant match, written only by external
tenant configuration, so it is fixed in the initial state). -/
structure Subscription where
  tenant : String
  subscriber : String
deriving DecidableEq, Repr

/-- Modelled from the spec: outbound notifications handed to the
Transport Gateway (§6), each addressed to one endpoint of one tenant.
The per-subscriber order of `alarm` notes is the delivery order. -/
inductive Note
  | invite (tenant target : String) (sid : Nat) (offer : String)
  | cancelInvite (tenant target : String) (sid : Nat)
  | acceptedNote (tenant target : String) (sid : Nat) (answer : String)
  | terminatedNote (tenant target : String) (sid : Nat) (reason : String)
  | alarm (tenant target source : String) (evId : Nat) (severity payload : String)
deriving DecidableEq, Repr

/-- The tenant a notification belongs to (the addressee's tenant). -/
def Note.tenantOf : Note → String
  | Note.invite t _ _ _ => t
  | Note.cancelInvite t _ _ => t
  | Note.acceptedNote t _ _ _ => t
  | Note.terminatedNote t _ _ _ => t
  | Note.alarm t _ _ _ _ _ => t

/-- Per-tenant counter table lookup (absent tenant counts from 0). -/
def getC (l : List (String × Nat)) (t : String) : Nat :=
  match l.find? (fun p => p.1 == t) with
  | some p => p.2
  | none => 0

/-- Per-tenant counter table update. -/
def setC (l : List (String × Nat)) (t : String) (n : Nat) : List (String × Nat) :=
  (t, n) :: l.filter (fun p => !(p.1 == t))

/-- Modelled from the spec: the whole core state — Presence Registry,
Session Coordinator sessions with a per-tenant session-id counter,
Alarm Dispatcher events with the per-tenant monotonic event-id counter,
the subscription table, and the outbound notification stream. -/
structure CoreState where
  registry : List Endpoint
  sessions : List Session
  nextSid : List (String × Nat)
  events : List AlarmEvent
  nextEid : List (String × Nat)
  subs : List Subscription
  notes : List Note
deriving DecidableEq, Repr

/-- The state at startup: empty but for the configured subscriptions. -/
def initCore (subs0 : List Subscription) : CoreState :=
  ⟨[], [], [], [], [], subs0, []⟩

/-- Modelled from the spec: the error taxonomy of §7 that the modelled
operations can return. -/
inductive ErrCode
  | callerOffline
  | noReachableCallee
  | sessionNotRinging
  | unknownDevice
deriving DecidableEq, Repr

/-- Explicit outcome values of the contract operations (§7). -/
inductive Res
  | ok
  | okSession (sid : Nat)
  | okEvent (evId : Nat)
  | okList (eps : List Endpoint)
  | err (e : ErrCode)
deriving DecidableEq, Repr

/-- Modelled from the spec: the typed intents decoded by the Transport
Gateway (§4.5), each tagged with the tenant established at connection
time by the external authentication collaborator — never taken from
client-supplied fields. -/
inductive Op
  | register (auth epId : String) (kind : EpKind) (caps : List String) (ts : Nat)
  | heartbeat (auth epId : String) (ts : Nat)
  | deregister (auth epId : String)
  | listByTenant (auth : String) (kindFilter : Option EpKind)
  | initiate (auth caller : String) (callees : List String) (offer : String)
  | accept (auth : String) (sid : Nat) (callee answer : String)
  | reject (auth : String) (sid : Nat) (callee : String)
  | terminate (auth : String) (sid : Nat) (byEp reason : String)
  | report (auth device severity payload : String)
  | acknowledge (auth : String) (evId : Nat) (subscriber : String)
deriving DecidableEq, Repr

/-- The authenticated tenant an intent was issued under. -/
def Op.auth : Op → String
  | Op.register a _ _ _ _ => a
  | Op.heartbeat a _ _ => a
  | Op.deregister a _ => a
  | Op.listByTenant a _ => a
  | Op.initiate a _ _ _ => a
  | Op.accept a _ _ _ => a
  | Op.reject a _ _ => a
  | Op.terminate a _ _ _ => a
  | Op.report a _ _ _ => a
  | Op.acknowledge a _ _ => a

/-- Tenant-scoped presence lookup (Tenant Router boundary: every
presence lookup is scoped to the requester's authenticated tenant). -/
def presentB (s : CoreState) (t i : String) : Bool :=
  s.registry.any (fun e => e.tenant == t && e.epId == i)

/-- Tenant-scoped session lookup. -/
def findSession (s : CoreState) (t : String) (sid : Nat) : Option Session :=
  s.sessions.find? (fun x => x.tenant == t && x.sid == sid)

/-- Modelled from the spec: one step of the core, processing a typed
intent against the contracts of §4.1–§4.4. All lookups are scoped to
the intent's authenticated tenant (§4.2); `register` evicts the prior
entry holding the same (globally unique) endpoint id; `accept` uses
first-accept-wins glare resolution; `terminate` and `acknowledge` are
idempotent; `report` draws the next per-tenant monotonic event id and
fans out to the tenant's subscribers. Timers, the liveness sweep,
backpressure shedding and the offline retry queue are outside the
claims and not modelled. -/
def applyOp (s : CoreState) (op : Op) : CoreState × Res :=
  match op with
  | Op.register a i k caps ts =>
    ({ s with registry :=
        ⟨i, a, k, caps, ts⟩ :: s.registry.filter (fun e => !(e.epId == i)) },
     Res.ok)
  | Op.heartbeat a i ts =>
    ({ s with registry := s.registry.map (fun e =>
        if e.tenant == a && e.epId == i then { e with lastHb := ts } else e) },
     Res.ok)
  | Op.deregister a i =>
    ({ s with registry := s.registry.filter (fun e => !(e.tenant == a && e.epId == i)) },
     Res.ok)
  | Op.listByTenant a kf =>
    (s, Res.okList ((s.registry.filter (fun e => e.tenant == a)).filter (fun e =>
        match kf with
        | none => true
        | some k => e.kind == k)))
  | Op.initiate a c callees offer =>
    if presentB s a c then
      let reach := callees.filter (fun k => presentB s a k)
      if reach.isEmpty then (s, Res.err ErrCode.noReachableCallee)
      else
        let sid := getC s.nextSid a
        ({ s with
            sessions := ⟨sid, a, c, reach, reach, none, SessState.ringing, offer, none, none⟩ :: s.sessions,
            nextSid := setC s.nextSid a (sid + 1),
            notes := s.notes ++ reach.map (fun k => Note.invite a k sid offer) },
         Res.okSession sid)
    else (s, Res.err ErrCode.callerOffline)
  | Op.accept a sid k ans =>
    match findSession s a sid with
    | none => (s, Res.err ErrCode.sessionNotRinging)
    | some ss =>
      if ss.st == SessState.ringing then
        ({ s with
            sessions := s.sessions.map (fun x =>
              if x.tenant == a && x.sid == sid then
                { x with st := SessState.active, acceptedBy := some k,
                         pending := [], answer := some ans }
              else x),
            notes := s.notes
              ++ (ss.invited.filter (fun j => !(j == k))).map (fun j => Note.cancelInvite a j sid)
              ++ [Note.acceptedNote a ss.caller sid ans] },
         Res.ok)
      else (s, Res.err ErrCode.sessionNotRinging)
  | Op.reject a sid k =>
    match findSession s a sid with
    | none => (s, Res.err ErrCode.sessionNotRinging)
    | some ss =>
      if ss.st == SessState.ringing then
        let pend := ss.pending.filter (fun j => !(j == k))
        ({ s with sessions := s.sessions.map (fun x =>
            if x.tenant == a && x.sid == sid then
              { x with pending := pend,
                       st := if pend.isEmpty then SessState.failed else SessState.ringing,
                       reason := if pend.isEmpty then some "AllRejected" else x.reason }
            else x) },
         Res.ok)
      else (s, Res.err ErrCode.sessionNotRinging)
  | Op.terminate a sid byEp reason =>
    match findSession s a sid with
    | none => (s, Res.ok)
    | some ss =>
      if ss.st.isTerminal then (s, Res.ok)
      else
        ({ s with
            sessions := s.sessions.map (fun x =>
              if x.tenant == a && x.sid == sid then
                { x with st := SessState.terminated, reason := some reason, pending := [] }
              else x),
            notes := s.notes
              ++ ((ss.caller :: ss.invited).filter (fun j => !(j == byEp))).map
                  (fun j => Note.terminatedNote a j sid reason) },
         Res.ok)
  | Op.report a d sev payload =>
    if presentB s a d then
      let e := getC s.nextEid a
      ({ s with
          events := ⟨e, a, d, sev, payload, []⟩ :: s.events,
          nextEid := setC s.nextEid a (e + 1),
          notes := s.notes
            ++ (s.subs.filter (fun sub => sub.tenant == a)).map (fun sub =>
                Note.alarm a sub.subscriber d e sev payload) },
       Res.okEvent e)
    else (s, Res.err ErrCode.unknownDevice)
  | Op.acknowledge a e o =>
    ({ s with events := s.events.map (fun ev =>
        if ev.tenant == a && ev.evId == e && !(ev.acks.contains o) then
          { ev with acks := o :: ev.acks }
        else ev) },
     Res.ok)

/-- The state after one intent. -/
def stepOp (s : CoreState) (op : Op) : CoreState := (applyOp s op).1

/-- The outcome of one intent. -/
def resOp (s : CoreState) (op : Op) : Res := (applyOp s op).2

/-- The state after a whole trace of intents (an interleaving of all
endpoints' serialized streams). -/
def runOps (s : CoreState) (tr : List Op) : CoreState := tr.foldl stepOp s

end Intercom

namespace Intercom

theorem filter_comm' {α : Type} (l : List α) (p q : α → Bool) :
    (l.filter p).filter q = (l.filter q).filter p := by
  rw [List.filter_filter, List.filter_filter]
  exact List.filter_congr (fun x _ => by cases p x <;> cases q x <;> rfl)

theorem filter_idem {α : Type} (l : List α) (p : α → Bool) :
    (l.filter p).filter p = l.filter p := by
  rw [List.filter_filter]
  exact List.filter_congr (fun x _ => by cases p x <;> rfl)

theorem any_filter' {α : Type} (l : List α) (q p : α → Bool) :
    (l.filter q).any p = l.any (fun x => q x && p x) := by
  induction l with
  | nil => rfl
  | cons x xs ih => cases hq : q x <;> simp [List.filter_cons, hq, ih]

theorem find?_filter' {α : Type} (l : List α) (q p : α → Bool) :
    (l.filter q).find? p = l.find? (fun x => q x && p x) := by
  induction l with
  | nil => rfl
  | cons x xs ih =>
    cases hq : q x <;> cases hp : p x <;>
      simp [List.filter_cons, List.find?_cons, hq, hp, ih]

theorem map_filter_frame {α : Type} (l : List α) (tb : α → Bool) (u : α → α)
    (h1 : ∀ x, tb x = true → u x = x) (h2 : ∀ x, tb (u x) = tb x) :
    (l.map u).filter tb = l.filter tb := by
  induction l with
  | nil => rfl
  | cons x xs ih =>
    cases hx : tb x with
    | false =>
      have hux : tb (u x) = false := by rw [h2, hx]
      simp [List.filter_cons, hx, hux, ih]
    | true =>
      have hux : u x = x := h1 x hx
      simp [List.filter_cons, hux, hx, ih]

theorem map_filter_comm {α : Type} (l : List α) (tb : α → Bool) (u : α → α)
    (h2 : ∀ x, tb (u x) = tb x) :
    (l.map u).filter tb = (l.filter tb).map u := by
  induction l with
  | nil => rfl
  | cons x xs ih => cases hx : tb x <;> simp [List.filter_cons, h2, hx, ih]

theorem getC_setC_same (l : List (String × Nat)) (t : String) (n : Nat) :
    getC (setC l t n) t = n := by
  simp [getC, setC, List.find?_cons]

theorem getC_setC_ne (l : List (String × Nat)) (t t' : String) (n : Nat) (h : t' ≠ t) :
    getC (setC l t n) t' = getC l t' := by
  unfold getC setC
  have hhead : ((t, n).1 == t') = false := by
    simp only [beq_eq_false_iff_ne]
    exact fun heq => h heq.symm
  rw [List.find?_cons_of_neg _ (by simpa using hhead)]
  rw [find?_filter']
  have : (fun x : String × Nat => !(x.1 == t) && (x.1 == t')) = (fun x => x.1 == t') := by
    funext x
    cases hx : (x.1 == t') with
    | false => simp
    | true =>
      have : x.1 = t' := by simpa using hx
      simp [this, Ne.symm h, h]
  rw [this]

end Intercom

namespace Intercom

/-- The endpoint ids currently live in the Presence Registry. -/
def registryIds (s : CoreState) : List String := s.registry.map Endpoint.epId

theorem registryIds_nodup_step (s : CoreState) (op : Op)
    (h : (registryIds s).Nodup) : (registryIds (stepOp s op)).Nodup := by
  cases op with
  | register a i k caps ts =>
    simp only [registryIds, stepOp, applyOp, List.map_cons, List.nodup_cons]
    constructor
    · intro hmem
      simp only [List.mem_map, List.mem_filter] at hmem
      obtain ⟨e, ⟨_, he⟩, heq⟩ := hmem
      rw [heq] at he
      simp at he
    · exact (h.sublist (((List.filter_sublist s.registry).map Endpoint.epId)))
  | heartbeat a i ts =>
    have : registryIds (stepOp s (Op.heartbeat a i ts)) = registryIds s := by
      simp only [registryIds, stepOp, applyOp, List.map_map]
      exact List.map_congr_left (fun e _ => by simp only [Function.comp]; split <;> rfl)
    rw [this]; exact h
  | deregister a i =>
    exact h.sublist ((List.filter_sublist s.registry).map Endpoint.epId)
  | listByTenant a kf => exact h
  | initiate a c callees offer =>
    simp only [registryIds, stepOp, applyOp]
    split
    · split <;> exact h
    · exact h
  | accept a sid k ans =>
    simp only [registryIds, stepOp, applyOp]
    rcases hf : findSession s a sid with _ | ss <;> simp only [hf]
    · exact h
    · split <;> exact h
  | reject a sid k =>
    simp only [registryIds, stepOp, applyOp]
    rcases hf : findSession s a sid with _ | ss <;> simp only [hf]
    · exact h
    · split <;> exact h
  | terminate a sid byEp reason =>
    simp only [registryIds, stepOp, applyOp]
    rcases hf : findSession s a sid with _ | ss <;> simp only [hf]
    · exact h
    · split <;> exact h
  | report a d sev payload =>
    simp only [registryIds, stepOp, applyOp]
    split <;> exact h
  | acknowledge a e o => exact h

theorem registryIds_nodup_run (s : CoreState) (tr : List Op)
    (h : (registryIds s).Nodup) : (registryIds (runOps s tr)).Nodup := by
  induction tr generalizing s with
  | nil => exact h
  | cons op rest ih => exact ih (stepOp s op) (registryIds_nodup_step s op h)

end Intercom

namespace Intercom

/-- C2: in every reachable presence registry, each endpoint id has at
most one live entry; and register evicts exactly the prior holder of
the id — afterwards the only entry for the id is the new endpoint, and
the entries for every other id are exactly those of before. -/
theorem presence_unique_per_id (subs0 : List Subscription) (tr : List Op)
    (eId : String) (s : CoreState) (a i : String) (k : EpKind)
    (caps : List String) (ts : Nat) :
    ((registryIds (runOps (initCore subs0) tr)).count eId ≤ 1) ∧
    ((stepOp s (Op.register a i k caps ts)).registry.filter (fun e => e.epId == i)
        = [⟨i, a, k, caps, ts⟩]) ∧
    ((stepOp s (Op.register a i k caps ts)).registry.filter (fun e => !(e.epId == i))
        = s.registry.filter (fun e => !(e.epId == i))) := by
  refine ⟨?_, ?_, ?_⟩
  · have h0 : (registryIds (initCore subs0)).Nodup := by
      simp [registryIds, initCore]
    exact List.nodup_iff_count_le_one.mp (registryIds_nodup_run _ tr h0) eId
  · simp only [stepOp, applyOp, List.filter_cons]
    have hnew : ((⟨i, a, k, caps, ts⟩ : Endpoint).epId == i) = true := by simp
    rw [if_pos hnew, List.filter_filter]
    have hz : (s.registry.filter fun e => (e.epId == i) && !(e.epId == i)) = [] := by
      simp
    rw [hz]
  · simp only [stepOp, applyOp, List.filter_cons]
    have hnew : (!((⟨i, a, k, caps, ts⟩ : Endpoint).epId == i)) = false := by simp
    rw [if_neg (by simp [hnew]), filter_idem]

end Intercom

namespace Intercom

theorem findSession_map_update (l : List Session) (a : String) (n : Nat)
    (g : Session → Session)
    (hg : ∀ x, (g x).tenant = x.tenant ∧ (g x).sid = x.sid) :
    ∀ ss, l.find? (fun x => x.tenant == a && x.sid == n) = some ss →
      (l.map (fun x => if x.tenant == a && x.sid == n then g x else x)).find?
          (fun x => x.tenant == a && x.sid == n) = some (g ss) := by
  induction l with
  | nil => intro ss h; simp at h
  | cons x xs ih =>
    intro ss h
    by_cases hx : (x.tenant == a && x.sid == n) = true
    · rw [@List.find?_cons_of_pos _ (fun y => y.tenant == a && y.sid == n) x xs hx] at h
      injection h with h
      subst h
      simp only [List.map_cons, if_pos hx]
      have hgx : ((g x).tenant == a && (g x).sid == n) = true := by
        rw [(hg x).1, (hg x).2]; exact hx
      rw [@List.find?_cons_of_pos _ (fun y => y.tenant == a && y.sid == n) (g x) _ hgx]
    · rw [@List.find?_cons_of_neg _ (fun y => y.tenant == a && y.sid == n) x xs hx] at h
      simp only [List.map_cons, if_neg hx]
      rw [@List.find?_cons_of_neg _ (fun y => y.tenant == a && y.sid == n) x _ hx]
      exact ih ss h

theorem deregister_idem (s : CoreState) (a i : String) :
    stepOp (stepOp s (Op.deregister a i)) (Op.deregister a i)
      = stepOp s (Op.deregister a i) := by
  simp only [stepOp, applyOp]
  congr 1
  exact filter_idem _ _

theorem terminate_idem (s : CoreState) (a : String) (sid : Nat) (byEp reason : String) :
    stepOp (stepOp s (Op.terminate a sid byEp reason)) (Op.terminate a sid byEp reason)
      = stepOp s (Op.terminate a sid byEp reason) := by
  rcases hf : findSession s a sid with _ | ss
  · simp [stepOp, applyOp, hf]
  · by_cases ht : ss.st.isTerminal = true
    · simp [stepOp, applyOp, hf, ht]
    · have h1 : findSession (stepOp s (Op.terminate a sid byEp reason)) a sid
          = some ({ ss with st := SessState.terminated, reason := some reason, pending := [] }) := by
        unfold findSession
        simp only [stepOp, applyOp, hf, if_neg ht]
        exact findSession_map_update s.sessions a sid
          (fun x => { x with st := SessState.terminated, reason := some reason, pending := [] })
          (fun x => ⟨rfl, rfl⟩) ss hf
      conv_lhs => rw [stepOp]
      simp only [applyOp, h1]
      rfl

theorem acknowledge_idem (s : CoreState) (a : String) (e : Nat) (o : String) :
    stepOp (stepOp s (Op.acknowledge a e o)) (Op.acknowledge a e o)
      = stepOp s (Op.acknowledge a e o) := by
  simp only [stepOp, applyOp]
  congr 1
  rw [List.map_map]
  refine List.map_congr_left (fun ev _ => ?_)
  simp only [Function.comp]
  by_cases hc : (ev.tenant == a && ev.evId == e && !(ev.acks.contains o)) = true
  · rw [if_pos hc]
    have : ((({ ev with acks := o :: ev.acks } : AlarmEvent).tenant == a
        && ({ ev with acks := o :: ev.acks } : AlarmEvent).evId == e)
        && !(({ ev with acks := o :: ev.acks } : AlarmEvent).acks.contains o)) = false := by
      simp
    rw [if_neg (by simp [this])]
  · rw [if_neg hc, if_neg hc]

end Intercom

namespace Intercom

/-- C7: repeated `Deregister`, `Terminate` and `Acknowledge` with the
same arguments make no further state change after the first
application, and terminating an already-terminal session is a no-op
outcome `ok`, not an error. -/
theorem repeated_ops_no_change (s : CoreState) (a i : String) (sid : Nat)
    (byEp reason : String) (e : Nat) (o : String) (ssx : Session) :
    (stepOp (stepOp s (Op.deregister a i)) (Op.deregister a i)
        = stepOp s (Op.deregister a i)) ∧
    (stepOp (stepOp s (Op.terminate a sid byEp reason)) (Op.terminate a sid byEp reason)
        = stepOp s (Op.terminate a sid byEp reason)) ∧
    (stepOp (stepOp s (Op.acknowledge a e o)) (Op.acknowledge a e o)
        = stepOp s (Op.acknowledge a e o)) ∧
    (findSession s a sid = some ssx → ssx.st.isTerminal = true →
        applyOp s (Op.terminate a sid byEp reason) = (s, Res.ok)) := by
  refine ⟨deregister_idem s a i, terminate_idem s a sid byEp reason,
    acknowledge_idem s a e o, fun hf ht => ?_⟩
  simp [applyOp, hf, ht]

end Intercom

namespace Intercom

/-- Presence of an endpoint id within a tenant, as a proposition. -/
def PresentIn (s : CoreState) (t i : String) : Prop :=
  ∃ e ∈ s.registry, e.tenant = t ∧ e.epId = i

instance (s : CoreState) (t i : String) : Decidable (PresentIn s t i) := by
  unfold PresentIn; infer_instance

theorem presentB_iff (s : CoreState) (t i : String) :
    presentB s t i = true ↔ PresentIn s t i := by
  simp [presentB, PresentIn, List.any_eq_true]

theorem nextEid_stepOp (s : CoreState) (op : Op) (t : String) :
    getC s.nextEid t ≤ getC (stepOp s op).nextEid t := by
  cases op with
  | register a i k caps ts => exact Nat.le_refl _
  | heartbeat a i ts => exact Nat.le_refl _
  | deregister a i => exact Nat.le_refl _
  | listByTenant a kf => exact Nat.le_refl _
  | initiate a c callees offer =>
    simp only [stepOp, applyOp]
    split
    · split <;> exact Nat.le_refl _
    · exact Nat.le_refl _
  | accept a sid k ans =>
    simp only [stepOp, applyOp]
    rcases hf : findSession s a sid with _ | ss <;> simp only [hf]
    · exact Nat.le_refl _
    · split <;> exact Nat.le_refl _
  | reject a sid k =>
    simp only [stepOp, applyOp]
    rcases hf : findSession s a sid with _ | ss <;> simp only [hf]
    · exact Nat.le_refl _
    · split <;> exact Nat.le_refl _
  | terminate a sid byEp reason =>
    simp only [stepOp, applyOp]
    rcases hf : findSession s a sid with _ | ss <;> simp only [hf]
    · exact Nat.le_refl _
    · split <;> exact Nat.le_refl _
  | report a d sev payload =>
    simp only [stepOp, applyOp]
    split
    · by_cases hta : t = a
      · subst hta
        rw [getC_setC_same]
        exact Nat.le_succ _
      · rw [getC_setC_ne _ _ _ _ hta]
    · exact Nat.le_refl _
  | acknowledge a e o => exact Nat.le_refl _

theorem nextEid_runOps (s : CoreState) (tr : List Op) (t : String) :
    getC s.nextEid t ≤ getC (runOps s tr).nextEid t := by
  induction tr generalizing s with
  | nil => exact Nat.le_refl _
  | cons op rest ih =>
    exact Nat.le_trans (nextEid_stepOp s op t) (ih (stepOp s op))

end Intercom

namespace Intercom

/-- C5: `Initiate` fails with `CallerOffline` when the caller is not
present in the authenticated tenant, fails with `NoReachableCallee`
when no requested callee is present in that tenant, and otherwise
returns the allocated session id. -/
theorem initiate_contract (s : CoreState) (a c : String) (callees : List String)
    (offer : String) :
    (¬ PresentIn s a c →
        applyOp s (Op.initiate a c callees offer) = (s, Res.err ErrCode.callerOffline)) ∧
    (PresentIn s a c → (∀ k ∈ callees, ¬ PresentIn s a k) →
        applyOp s (Op.initiate a c callees offer) = (s, Res.err ErrCode.noReachableCallee)) ∧
    (PresentIn s a c → (∃ k ∈ callees, PresentIn s a k) →
        resOp s (Op.initiate a c callees offer) = Res.okSession (getC s.nextSid a)) := by
  refine ⟨?_, ?_, ?_⟩
  · intro hp
    simp only [applyOp]
    rw [if_neg (fun h => hp ((presentB_iff s a c).mp h))]
  · intro hp hno
    have hr : callees.filter (fun k => presentB s a k) = [] := by
      rw [List.filter_eq_nil_iff]
      intro k hk
      exact fun h => hno k hk ((presentB_iff s a k).mp h)
    simp only [applyOp, if_pos ((presentB_iff s a c).mpr hp), hr]
    rfl
  · intro hp hex
    have hne : callees.filter (fun k => presentB s a k) ≠ [] := by
      obtain ⟨k, hk, he⟩ := hex
      intro hnil
      have hm : k ∈ callees.filter (fun k => presentB s a k) :=
        List.mem_filter.mpr ⟨hk, (presentB_iff s a k).mpr he⟩
      rw [hnil] at hm
      simp at hm
    have hisE : (callees.filter (fun k => presentB s a k)).isEmpty = false := by
      rcases hcl : callees.filter (fun k => presentB s a k) with _ | ⟨y, ys⟩
      · exact absurd hcl hne
      · rfl
    simp only [resOp, applyOp, if_pos ((presentB_iff s a c).mpr hp), hisE]
    rfl

/-- Witness for C5 at a two-endpoint state: caller `c` and callee `k`
registered in tenant `A`. -/
def sampleRegState : CoreState :=
  ⟨[⟨"c", "A", EpKind.device, [], 0⟩, ⟨"k", "A", EpKind.operator, [], 0⟩],
   [], [], [], [], [], []⟩

theorem initiate_contract_witness :
    resOp sampleRegState (Op.initiate "A" "c" ["k"] "sdp")
      = Res.okSession (getC sampleRegState.nextSid "A") :=
  (initiate_contract sampleRegState "A" "c" ["k"] "sdp").2.2
    (by decide) (by decide)

end Intercom

namespace Intercom

/-- C6: a report from an unregistered device fails with `UnknownDevice`
and changes nothing; a report from a registered device is assigned the
tenant's current event counter, which then increments, and the counter
never decreases under any operation, so event ids of successive
successful reports within one tenant are strictly increasing. -/
theorem report_contract (s : CoreState) (a d sev payload : String) (op2 : Op)
    (t : String) (tr : List Op) (d2 sev2 p2 : String) :
    (¬ PresentIn s a d →
        applyOp s (Op.report a d sev payload) = (s, Res.err ErrCode.unknownDevice)) ∧
    (PresentIn s a d →
        resOp s (Op.report a d sev payload) = Res.okEvent (getC s.nextEid a) ∧
        getC (stepOp s (Op.report a d sev payload)).nextEid a = getC s.nextEid a + 1) ∧
    (getC s.nextEid t ≤ getC (stepOp s op2).nextEid t) ∧
    (PresentIn s a d →
      ∀ e2, resOp (runOps (stepOp s (Op.report a d sev payload)) tr)
          (Op.report a d2 sev2 p2) = Res.okEvent e2 →
        resOp s (Op.report a d sev payload) = Res.okEvent (getC s.nextEid a) ∧
        getC s.nextEid a < e2) := by
  have hok : PresentIn s a d →
      resOp s (Op.report a d sev payload) = Res.okEvent (getC s.nextEid a) := by
    intro hp
    simp only [resOp, applyOp, if_pos ((presentB_iff s a d).mpr hp)]
  refine ⟨?_, ?_, nextEid_stepOp s op2 t, ?_⟩
  · intro hp
    simp only [applyOp]
    rw [if_neg (fun h => hp ((presentB_iff s a d).mp h))]
  · intro hp
    refine ⟨hok hp, ?_⟩
    simp only [stepOp, applyOp, if_pos ((presentB_iff s a d).mpr hp)]
    exact getC_setC_same _ _ _
  · intro hp e2 h2
    refine ⟨hok hp, ?_⟩
    have hstep : getC (stepOp s (Op.report a d sev payload)).nextEid a
        = getC s.nextEid a + 1 := by
      simp only [stepOp, applyOp, if_pos ((presentB_iff s a d).mpr hp)]
      exact getC_setC_same _ _ _
    have hmono := nextEid_runOps (stepOp s (Op.report a d sev payload)) tr a
    rw [hstep] at hmono
    simp only [resOp, applyOp] at h2
    split at h2
    · injection h2 with h2
      rw [← h2]
      exact Nat.lt_of_succ_le hmono
    · simp at h2

/-- Witness for C6 at a one-device state. -/
def sampleDevState : CoreState :=
  ⟨[⟨"d", "A", EpKind.device, [], 0⟩], [], [], [], [], [], []⟩

theorem report_contract_witness :
    resOp sampleDevState (Op.report "A" "d" "critical" "p")
      = Res.okEvent (getC sampleDevState.nextEid "A") ∧
    getC (stepOp sampleDevState (Op.report "A" "d" "critical" "p")).nextEid "A"
      = getC sampleDevState.nextEid "A" + 1 :=
  (report_contract sampleDevState "A" "d" "critical" "p" (Op.report "A" "d" "x" "y")
      "A" [] "d" "x" "y").2.1 (by decide)

end Intercom

namespace Intercom

/-- A terminal session used by the C7 witness. -/
def sampleSession : Session :=
  ⟨0, "A", "c", ["k"], [], none, SessState.terminated, "sdp", none, some "done"⟩

/-- A state holding only that terminal session. -/
def sampleTermState : CoreState := ⟨[], [sampleSession], [], [], [], [], []⟩

theorem repeated_ops_no_change_witness :
    applyOp sampleTermState (Op.terminate "A" 0 "c" "bye") = (sampleTermState, Res.ok) :=
  (repeated_ops_no_change sampleTermState "A" "x" 0 "c" "bye" 0 "o" sampleSession).2.2.2
    (by decide) (by decide)

end Intercom

namespace Intercom

theorem accept_not_ringing (s : CoreState) (a : String) (sid : Nat) (k ans : String)
    (ss : Session) (hf : findSession s a sid = some ss) (hr : ss.st ≠ SessState.ringing) :
    applyOp s (Op.accept a sid k ans) = (s, Res.err ErrCode.sessionNotRinging) := by
  simp only [applyOp, hf]
  rw [if_neg (fun h => hr (by simpa using h))]

/-- Running a burst of Accept calls for one session, in order. -/
def runAccepts (s : CoreState) (a : String) (sid : Nat) :
    List (String × String) → CoreState × List Res
  | [] => (s, [])
  | (k, ans) :: rest =>
    let p := applyOp s (Op.accept a sid k ans)
    let q := runAccepts p.1 a sid rest
    (q.1, p.2 :: q.2)

theorem runAccepts_stuck (s : CoreState) (a : String) (sid : Nat) (ss : Session)
    (hf : findSession s a sid = some ss) (hr : ss.st ≠ SessState.ringing) :
    ∀ l, runAccepts s a sid l = (s, l.map (fun _ => Res.err ErrCode.sessionNotRinging)) := by
  intro l
  induction l with
  | nil => rfl
  | cons p rest ih =>
    obtain ⟨k, ans⟩ := p
    simp only [runAccepts, accept_not_ringing s a sid k ans ss hf hr, ih, List.map_cons]

theorem findSession_after_accept (s : CoreState) (a : String) (sid : Nat)
    (k1 ans1 : String) (ss : Session)
    (hf : findSession s a sid = some ss) (hr : ss.st = SessState.ringing) :
    findSession (stepOp s (Op.accept a sid k1 ans1)) a sid
      = some { ss with st := SessState.active, acceptedBy := some k1,
                       pending := [], answer := some ans1 } := by
  have hrB : (ss.st == SessState.ringing) = true := by rw [hr]; rfl
  unfold findSession
  simp only [stepOp, applyOp, hf, if_pos hrB]
  exact findSession_map_update s.sessions a sid
    (fun x => { x with st := SessState.active, acceptedBy := some k1,
                       pending := [], answer := some ans1 })
    (fun x => ⟨rfl, rfl⟩) ss hf

end Intercom

namespace Intercom

/-- C3: in a burst of Accept calls on a Ringing session the first one
succeeds and moves the session to Active bound to the first acceptor,
every later call in the burst gets `SessionNotRinging`, every other
invited callee is sent a cancel-invite notification, and an Accept on
any session that is not Ringing fails with `SessionNotRinging`. -/
theorem accept_first_wins (s : CoreState) (a : String) (sid : Nat) (ss : Session)
    (k1 ans1 : String) (rest : List (String × String))
    (hf : findSession s a sid = some ss) (hr : ss.st = SessState.ringing) :
    (runAccepts s a sid ((k1, ans1) :: rest)
        = (stepOp s (Op.accept a sid k1 ans1),
           Res.ok :: rest.map (fun _ => Res.err ErrCode.sessionNotRinging))) ∧
    (findSession (stepOp s (Op.accept a sid k1 ans1)) a sid
        = some { ss with st := SessState.active, acceptedBy := some k1,
                         pending := [], answer := some ans1 }) ∧
    (∀ j ∈ ss.invited, j ≠ k1 →
        Note.cancelInvite a j sid ∈ (stepOp s (Op.accept a sid k1 ans1)).notes) ∧
    (∀ s2 ss2 k ans, findSession s2 a sid = some ss2 → ss2.st ≠ SessState.ringing →
        applyOp s2 (Op.accept a sid k ans) = (s2, Res.err ErrCode.sessionNotRinging)) := by
  have hrB : (ss.st == SessState.ringing) = true := by rw [hr]; rfl
  have hfind := findSession_after_accept s a sid k1 ans1 ss hf hr
  have hres : resOp s (Op.accept a sid k1 ans1) = Res.ok := by
    simp only [resOp, applyOp, hf, if_pos hrB]
  refine ⟨?_, hfind, ?_, ?_⟩
  · have hstuck := runAccepts_stuck (stepOp s (Op.accept a sid k1 ans1)) a sid
      _ hfind (by intro hcon; cases hcon) rest
    simp only [runAccepts]
    rw [show (applyOp s (Op.accept a sid k1 ans1)).1
        = stepOp s (Op.accept a sid k1 ans1) from rfl]
    rw [hstuck]
    rw [show (applyOp s (Op.accept a sid k1 ans1)).2 = Res.ok from hres]
  · intro j hj hjk
    simp only [stepOp, applyOp, hf, if_pos hrB]
    have hmem : Note.cancelInvite a j sid ∈
        (ss.invited.filter (fun x => !(x == k1))).map (fun x => Note.cancelInvite a x sid) := by
      refine List.mem_map.mpr ⟨j, List.mem_filter.mpr ⟨hj, by simpa using hjk⟩, rfl⟩
    exact List.mem_append.mpr (Or.inl (List.mem_append.mpr (Or.inr hmem)))
  · intro s2 ss2 k ans hf2 hr2
    exact accept_not_ringing s2 a sid k ans ss2 hf2 hr2

/-- A ringing two-callee session used by the C3 witness. -/
def sampleRingSession : Session :=
  ⟨0, "A", "c", ["k1", "k2"], ["k1", "k2"], none, SessState.ringing, "sdp", none, none⟩

/-- A state holding only that ringing session. -/
def sampleRingState : CoreState := ⟨[], [sampleRingSession], [], [], [], [], []⟩

theorem accept_first_wins_witness :
    (runAccepts sampleRingState "A" 0 [("k2", "a2"), ("k1", "a1")]
        = (stepOp sampleRingState (Op.accept "A" 0 "k2" "a2"),
           Res.ok :: [("k1", "a1")].map (fun _ => Res.err ErrCode.sessionNotRinging))) ∧
    Note.cancelInvite "A" "k1" 0 ∈ (stepOp sampleRingState (Op.accept "A" 0 "k2" "a2")).notes := by
  have h := accept_first_wins sampleRingState "A" 0 sampleRingSession "k2" "a2"
    [("k1", "a1")] (by decide) (by decide)
  exact ⟨h.1, h.2.2.1 "k1" (by decide) (by decide)⟩

end Intercom

namespace Intercom

/-- Does a note carry an alarm event addressed to subscriber `o` in
tenant `t`. -/
def isAlarmTo (o t : String) (n : Note) : Bool :=
  match n with
  | Note.alarm tn tgt _ _ _ _ => tgt == o && tn == t
  | _ => false

/-- Does a note carry an alarm event addressed to `o` whose source
device is `d`. -/
def isAlarmToFrom (o d : String) (n : Note) : Bool :=
  match n with
  | Note.alarm _ tgt src _ _ _ => tgt == o && src == d
  | _ => false

/-- Does a note carry an alarm event whose source device is `d`. -/
def isAlarmFrom (d : String) (n : Note) : Bool :=
  match n with
  | Note.alarm _ _ src _ _ _ => src == d
  | _ => false

/-- The event id carried by an alarm note. -/
def noteEvId : Note → Nat
  | Note.alarm _ _ _ e _ _ => e
  | _ => 0

/-- Event ids of the alarm notes delivered to `o` in tenant `t`, in
delivery order. -/
def alarmIdsL (o t : String) (l : List Note) : List Nat :=
  (l.filter (isAlarmTo o t)).map noteEvId

/-- Event ids of the alarm notes subscriber `o` observes from device
`d`, in delivery order. -/
def obsFrom (s : CoreState) (o d : String) : List Nat :=
  (s.notes.filter (isAlarmToFrom o d)).map noteEvId

/-- Does an op respect the binding of device `d` to tenant `t0`: any
report from `d` is authenticated as `t0` (endpoint identities are bound
to one tenant by the external authentication collaborator). -/
def reportRespects (d t0 : String) : Op → Bool
  | Op.report a d2 _ _ => !(d2 == d) || (a == t0)
  | _ => true

theorem alarmIdsL_append (o t : String) (l m : List Note) :
    alarmIdsL o t (l ++ m) = alarmIdsL o t l ++ alarmIdsL o t m := by
  unfold alarmIdsL
  rw [List.filter_append, List.map_append]

theorem alarmIdsL_none (o t : String) (m : List Note)
    (h : ∀ n ∈ m, isAlarmTo o t n = false) : alarmIdsL o t m = [] := by
  unfold alarmIdsL
  have : m.filter (isAlarmTo o t) = [] := by
    rw [List.filter_eq_nil_iff]
    intro n hn
    simp [h n hn]
  rw [this]
  rfl

theorem pairwise_le_of_const (c : Nat) (l : List Nat) (h : ∀ x ∈ l, x = c) :
    l.Pairwise (· ≤ ·) := by
  induction l with
  | nil => exact List.Pairwise.nil
  | cons x xs ih =>
    refine List.Pairwise.cons ?_ (ih (fun y hy => h y (List.mem_cons_of_mem x hy)))
    intro y hy
    rw [h x (List.mem_cons_self x xs), h y (List.mem_cons_of_mem x hy)]

theorem filter_sublist_mono {α : Type} (l : List α) (p q : α → Bool)
    (h : ∀ x ∈ l, p x = true → q x = true) :
    List.Sublist (l.filter p) (l.filter q) := by
  induction l with
  | nil => exact List.Sublist.refl _
  | cons x xs ih =>
    have ih2 := ih (fun y hy hp => h y (List.mem_cons_of_mem x hy) hp)
    by_cases hp : p x = true
    · have hq := h x (List.mem_cons_self x xs) hp
      simp only [List.filter_cons, hp, hq, if_true]
      exact ih2.cons₂ x
    · simp only [List.filter_cons, if_neg hp]
      by_cases hq : q x = true
      · simp only [hq, if_true]
        exact ih2.cons x
      · simp only [hq, if_false]
        exact ih2

/-- The ordering invariant: per subscriber and tenant the delivered
alarm ids are non-decreasing and below the tenant's event counter, and
(under the device-tenant binding) every alarm note from device `d`
belongs to tenant `t0`. -/
def AlarmInv (d t0 : String) (s : CoreState) : Prop :=
  (∀ o t, (alarmIdsL o t s.notes).Pairwise (· ≤ ·)) ∧
  (∀ o t, ∀ x ∈ alarmIdsL o t s.notes, x < getC s.nextEid t) ∧
  (∀ n ∈ s.notes, isAlarmFrom d n = true → Note.tenantOf n = t0)

end Intercom

namespace Intercom

/-- Is the note an alarm-event note at all. -/
def isAlarmNote : Note → Bool
  | Note.alarm _ _ _ _ _ _ => true
  | _ => false

theorem isAlarmTo_false_of_not (o t : String) (n : Note)
    (h : isAlarmNote n = false) : isAlarmTo o t n = false := by
  cases n <;> simp_all [isAlarmNote, isAlarmTo]

theorem isAlarmFrom_false_of_not (d : String) (n : Note)
    (h : isAlarmNote n = false) : isAlarmFrom d n = false := by
  cases n <;> simp_all [isAlarmNote, isAlarmFrom]

theorem alarmInv_extend (d t0 : String) (s s' : CoreState) (m : List Note)
    (hnotes : s'.notes = s.notes ++ m)
    (hm : ∀ n ∈ m, isAlarmNote n = false)
    (heid : s'.nextEid = s.nextEid)
    (hinv : AlarmInv d t0 s) : AlarmInv d t0 s' := by
  obtain ⟨h1, h2, h3⟩ := hinv
  have hids : ∀ o t, alarmIdsL o t s'.notes = alarmIdsL o t s.notes := by
    intro o t
    rw [hnotes, alarmIdsL_append,
        alarmIdsL_none o t m (fun n hn => isAlarmTo_false_of_not o t n (hm n hn)),
        List.append_nil]
  refine ⟨fun o t => by rw [hids]; exact h1 o t,
          fun o t x hx => by rw [heid]; exact h2 o t x (by rwa [hids o t] at hx),
          ?_⟩
  intro n hn halarm
  rw [hnotes] at hn
  rcases List.mem_append.mp hn with hl | hr
  · exact h3 n hl halarm
  · rw [isAlarmFrom_false_of_not d n (hm n hr)] at halarm
    cases halarm

theorem alarmInv_step (d t0 : String) (s : CoreState) (op : Op)
    (hop : reportRespects d t0 op = true)
    (hinv : AlarmInv d t0 s) : AlarmInv d t0 (stepOp s op) := by
  cases op with
  | register a i k caps ts =>
    exact alarmInv_extend d t0 s _ [] (by simp [stepOp, applyOp]) (by simp) rfl hinv
  | heartbeat a i ts =>
    exact alarmInv_extend d t0 s _ [] (by simp [stepOp, applyOp]) (by simp) rfl hinv
  | deregister a i =>
    exact alarmInv_extend d t0 s _ [] (by simp [stepOp, applyOp]) (by simp) rfl hinv
  | listByTenant a kf => exact hinv
  | initiate a c callees offer =>
    simp only [stepOp, applyOp]
    by_cases hp : presentB s a c = true
    · rw [if_pos hp]
      by_cases he : (callees.filter (fun k => presentB s a k)).isEmpty = true
      · rw [if_pos he]
        exact hinv
      · rw [if_neg he]
        refine alarmInv_extend d t0 s _ _ rfl ?_ rfl hinv
        intro n hn
        rcases List.mem_map.mp hn with ⟨x, _, rfl⟩
        rfl
    · rw [if_neg hp]
      exact hinv
  | accept a sid k ans =>
    simp only [stepOp, applyOp]
    rcases hf : findSession s a sid with _ | ss <;> simp only [hf]
    · exact hinv
    · by_cases hr : (ss.st == SessState.ringing) = true
      · rw [if_pos hr]
        refine alarmInv_extend d t0 s _ _ (List.append_assoc _ _ _) ?_ rfl hinv
        intro n hn
        rcases List.mem_append.mp hn with hl | hrr
        · rcases List.mem_map.mp hl with ⟨x, _, rfl⟩
          rfl
        · rcases List.mem_singleton.mp hrr with rfl
          rfl
      · rw [if_neg hr]
        exact hinv
  | reject a sid k =>
    simp only [stepOp, applyOp]
    rcases hf : findSession s a sid with _ | ss <;> simp only [hf]
    · exact hinv
    · by_cases hr : (ss.st == SessState.ringing) = true
      · rw [if_pos hr]
        exact alarmInv_extend d t0 s _ [] (by simp) (by simp) rfl hinv
      · rw [if_neg hr]
        exact hinv
  | terminate a sid byEp reason =>
    simp only [stepOp, applyOp]
    rcases hf : findSession s a sid with _ | ss <;> simp only [hf]
    · exact hinv
    · by_cases ht : ss.st.isTerminal = true
      · rw [if_pos ht]
        exact hinv
      · rw [if_neg ht]
        refine alarmInv_extend d t0 s _ _ rfl ?_ rfl hinv
        intro n hn
        rcases List.mem_map.mp hn with ⟨x, _, rfl⟩
        rfl
  | acknowledge a e o =>
    exact alarmInv_extend d t0 s _ [] (by simp [stepOp, applyOp]) (by simp) rfl hinv
  | report b d2 sev pp =>
    simp only [stepOp, applyOp]
    by_cases hp : presentB s b d2 = true
    · rw [if_pos hp]
      obtain ⟨h1, h2, h3⟩ := hinv
      have hnew : ∀ n ∈ (s.subs.filter (fun sub => sub.tenant == b)).map
          (fun sub => Note.alarm b sub.subscriber d2 (getC s.nextEid b) sev pp),
          Note.tenantOf n = b ∧ noteEvId n = getC s.nextEid b ∧
          (isAlarmFrom d n = true → d2 = d) := by
        intro n hn
        rcases List.mem_map.mp hn with ⟨x, _, rfl⟩
        exact ⟨rfl, rfl, fun hh => by simpa [isAlarmFrom] using hh⟩
      have hconst : ∀ o t x, x ∈ alarmIdsL o t
          ((s.subs.filter (fun sub => sub.tenant == b)).map
            (fun sub => Note.alarm b sub.subscriber d2 (getC s.nextEid b) sev pp)) →
          x = getC s.nextEid b ∧ t = b := by
        intro o t x hx
        unfold alarmIdsL at hx
        rcases List.mem_map.mp hx with ⟨n, hn, rfl⟩
        have hn2 := List.mem_filter.mp hn
        rcases List.mem_map.mp hn2.1 with ⟨y, _, rfl⟩
        refine ⟨rfl, ?_⟩
        have := hn2.2
        simp only [isAlarmTo, Bool.and_eq_true, beq_iff_eq] at this
        exact this.2.symm
      refine ⟨?_, ?_, ?_⟩
      · intro o t
        rw [alarmIdsL_append]
        rw [List.pairwise_append]
        refine ⟨h1 o t, pairwise_le_of_const _ _ (fun x hx => (hconst o t x hx).1), ?_⟩
        intro x hx y hy
        obtain ⟨hyc, htb⟩ := hconst o t y hy
        rw [hyc, ← htb]
        exact Nat.le_of_lt (h2 o t x hx)
      · intro o t x hx
        rw [alarmIdsL_append] at hx
        rcases List.mem_append.mp hx with hl | hrr
        · by_cases htb : t = b
          · subst htb
            rw [getC_setC_same]
            exact Nat.lt_succ_of_lt (h2 o t x hl)
          · rw [getC_setC_ne _ _ _ _ htb]
            exact h2 o t x hl
        · obtain ⟨rfl, rfl⟩ := hconst o t x hrr
          rw [getC_setC_same]
          exact Nat.lt_succ_self _
      · intro n hn halarm
        rcases List.mem_append.mp hn with hl | hrr
        · exact h3 n hl halarm
        · obtain ⟨htn, _, himp⟩ := hnew n hrr
          have hd2 : d2 = d := himp halarm
          subst hd2
          simp only [reportRespects] at hop
          rw [htn]
          simpa using hop
    · rw [if_neg hp]
      exact hinv

theorem alarmInv_run (d t0 : String) (s : CoreState) (tr : List Op)
    (htr : ∀ op ∈ tr, reportRespects d t0 op = true)
    (hinv : AlarmInv d t0 s) : AlarmInv d t0 (runOps s tr) := by
  induction tr generalizing s with
  | nil => exact hinv
  | cons op rest ih =>
    exact ih (stepOp s op)
      (fun x hx => htr x (List.mem_cons_of_mem op hx))
      (alarmInv_step d t0 s op (htr op (List.mem_cons_self op rest)) hinv)

end Intercom

namespace Intercom

/-- C4: along any trace in which device `d` only ever reports under its
own tenant `t0` (the binding the authentication collaborator enforces),
every subscriber observes `d`'s alarm events in non-decreasing
event-id order; nothing is claimed across devices. -/
theorem alarm_order_per_device (subs0 : List Subscription) (tr : List Op)
    (o d t0 : String) (htr : tr.all (reportRespects d t0) = true) :
    (obsFrom (runOps (initCore subs0) tr) o d).Pairwise (· ≤ ·) := by
  have hinv0 : AlarmInv d t0 (initCore subs0) := by
    refine ⟨fun o' t' => ?_, fun o' t' x hx => ?_, fun n hn _ => ?_⟩
    · simp [alarmIdsL, initCore]
    · simp [alarmIdsL, initCore] at hx
    · simp [initCore] at hn
  have hinv := alarmInv_run d t0 _ tr (fun op hop => List.all_eq_true.mp htr op hop) hinv0
  obtain ⟨h1, h2, h3⟩ := hinv
  have hsub : List.Sublist
      ((runOps (initCore subs0) tr).notes.filter (isAlarmToFrom o d))
      ((runOps (initCore subs0) tr).notes.filter (isAlarmTo o t0)) := by
    apply filter_sublist_mono
    intro n hn hfrom
    cases n with
    | alarm tn tgt src e sv p =>
      simp only [isAlarmToFrom, Bool.and_eq_true, beq_iff_eq] at hfrom
      obtain ⟨hto, hsrc⟩ := hfrom
      have hfromd : isAlarmFrom d (Note.alarm tn tgt src e sv p) = true := by
        simp [isAlarmFrom, hsrc]
      have htn := h3 _ hn hfromd
      simp only [Note.tenantOf] at htn
      simp [isAlarmTo, hto, htn]
    | invite t1 t2 t3 t4 => simp [isAlarmToFrom] at hfrom
    | cancelInvite t1 t2 t3 => simp [isAlarmToFrom] at hfrom
    | acceptedNote t1 t2 t3 t4 => simp [isAlarmToFrom] at hfrom
    | terminatedNote t1 t2 t3 t4 => simp [isAlarmToFrom] at hfrom
  unfold obsFrom
  have hpair := h1 o t0
  unfold alarmIdsL at hpair
  exact hpair.sublist (hsub.map noteEvId)

/-- Subscriptions used by the C4 witness. -/
def sampleAlarmSubs : List Subscription := [⟨"A", "o1"⟩]

/-- A register-then-two-reports trace used by the C4 witness. -/
def sampleAlarmTrace : List Op :=
  [Op.register "A" "dev" EpKind.device [] 0,
   Op.report "A" "dev" "high" "p1",
   Op.report "A" "dev" "high" "p2"]

theorem alarm_order_per_device_witness :
    (obsFrom (runOps (initCore sampleAlarmSubs) sampleAlarmTrace) "o1" "dev").Pairwise (· ≤ ·) :=
  alarm_order_per_device sampleAlarmSubs sampleAlarmTrace "o1" "dev" "A" (by decide)

end Intercom

namespace Intercom

/-- Modelled from the spec: the slice of the core state belonging to
one tenant — what an observer confined to that tenant can see. -/
@[ext]
structure TenantView where
  registry : List Endpoint
  sessions : List Session
  sidC : Nat
  events : List AlarmEvent
  eidC : Nat
  subs : List Subscription
  notes : List Note
deriving DecidableEq, Repr

/-- The projection of the core state onto one tenant. -/
def CoreState.view (s : CoreState) (t : String) : TenantView :=
  ⟨s.registry.filter (fun e => e.tenant == t),
   s.sessions.filter (fun x => x.tenant == t),
   getC s.nextSid t,
   s.events.filter (fun ev => ev.tenant == t),
   getC s.nextEid t,
   s.subs.filter (fun sub => sub.tenant == t),
   s.notes.filter (fun n => Note.tenantOf n == t)⟩

/-- The side condition the authentication collaborator guarantees for a
register intent: the (globally unique) endpoint id being registered is
not currently held by a different tenant. Trivial for every other
intent. -/
def RegisterSafe (op : Op) (s : CoreState) : Prop :=
  match op with
  | Op.register a i _ _ _ => ∀ e ∈ s.registry, e.epId = i → e.tenant = a
  | _ => True

theorem notes_filter_append_none (t2 : String) (l m : List Note)
    (hm : ∀ n ∈ m, Note.tenantOf n ≠ t2) :
    (l ++ m).filter (fun n => Note.tenantOf n == t2)
      = l.filter (fun n => Note.tenantOf n == t2) := by
  rw [List.filter_append]
  have hnil : m.filter (fun n => Note.tenantOf n == t2) = [] := by
    rw [List.filter_eq_nil_iff]
    intro n hn
    simpa using hm n hn
  rw [hnil, List.append_nil]

theorem notes_filter_append_all (a : String) (l m : List Note)
    (hm : ∀ n ∈ m, Note.tenantOf n = a) :
    (l ++ m).filter (fun n => Note.tenantOf n == a)
      = l.filter (fun n => Note.tenantOf n == a) ++ m := by
  rw [List.filter_append]
  congr 1
  exact List.filter_eq_self.mpr (fun n hn => by simpa using hm n hn)

end Intercom

namespace Intercom

theorem view_frame (op : Op) (s : CoreState) (t2 : String)
    (hne : op.auth ≠ t2) (hrs : RegisterSafe op s) :
    (stepOp s op).view t2 = s.view t2 := by
  cases op with
  | register a i k caps ts =>
    have hne' : a ≠ t2 := hne
    have hrs' : ∀ e ∈ s.registry, e.epId = i → e.tenant = a := hrs
    refine TenantView.ext ?_ rfl rfl rfl rfl rfl rfl
    show ((⟨i, a, k, caps, ts⟩ :: s.registry.filter (fun e => !(e.epId == i))).filter
        (fun e => e.tenant == t2)) = s.registry.filter (fun e => e.tenant == t2)
    rw [List.filter_cons, if_neg (by simp [hne']), List.filter_filter]
    refine List.filter_congr ?_
    intro e he
    cases hb : (e.tenant == t2) with
    | false => simp
    | true =>
      have hta : e.epId ≠ i :=
        fun hei => hne' ((hrs' e he hei).symm.trans (beq_iff_eq.mp hb))
      simp [hta]
  | heartbeat a i ts =>
    have hne' : a ≠ t2 := hne
    refine TenantView.ext ?_ rfl rfl rfl rfl rfl rfl
    refine map_filter_frame _ _ _ ?_ ?_
    · intro x hx
      have hxa : (x.tenant == a) = false := by
        have hxt : x.tenant = t2 := beq_iff_eq.mp hx
        simp [hxt, Ne.symm hne']
      rw [if_neg (by simp [hxa])]
    · intro x
      by_cases hc : (x.tenant == a && x.epId == i) = true <;> simp [hc]
  | deregister a i =>
    have hne' : a ≠ t2 := hne
    refine TenantView.ext ?_ rfl rfl rfl rfl rfl rfl
    show (s.registry.filter (fun e => !(e.tenant == a && e.epId == i))).filter
        (fun e => e.tenant == t2) = s.registry.filter (fun e => e.tenant == t2)
    rw [List.filter_filter]
    refine List.filter_congr ?_
    intro e _
    cases hb : (e.tenant == t2) with
    | false => simp
    | true =>
      have hxa : (e.tenant == a) = false := by
        have hxt : e.tenant = t2 := beq_iff_eq.mp hb
        simp [hxt, Ne.symm hne']
      simp [hxa]
  | listByTenant a kf => rfl
  | initiate a c callees offer =>
    have hne' : a ≠ t2 := hne
    simp only [stepOp, applyOp]
    by_cases hp : presentB s a c = true
    · rw [if_pos hp]
      by_cases he : (callees.filter (fun k => presentB s a k)).isEmpty = true
      · rw [if_pos he]
      · rw [if_neg he]
        refine TenantView.ext rfl ?_ ?_ rfl rfl rfl ?_
        · show (_ :: s.sessions).filter (fun x => x.tenant == t2)
              = s.sessions.filter (fun x => x.tenant == t2)
          rw [List.filter_cons, if_neg (by simp [hne'])]
        · exact getC_setC_ne _ _ _ _ (Ne.symm hne')
        · refine notes_filter_append_none t2 _ _ ?_
          intro n hn
          rcases List.mem_map.mp hn with ⟨x, _, rfl⟩
          simpa [Note.tenantOf] using hne'
    · rw [if_neg hp]
  | accept a sid k ans =>
    have hne' : a ≠ t2 := hne
    simp only [stepOp, applyOp]
    rcases hf : findSession s a sid with _ | ss <;> simp only [hf]
    by_cases hr : (ss.st == SessState.ringing) = true
    · rw [if_pos hr]
      refine TenantView.ext rfl ?_ rfl rfl rfl rfl ?_
      · refine map_filter_frame _ _ _ ?_ ?_
        · intro x hx
          have hxa : (x.tenant == a) = false := by
            have hxt : x.tenant = t2 := beq_iff_eq.mp hx
            simp [hxt, Ne.symm hne']
          rw [if_neg (by simp [hxa])]
        · intro x
          by_cases hc : (x.tenant == a && x.sid == sid) = true <;> simp [hc]
      · refine (notes_filter_append_none t2 _ _ ?_).trans
          (notes_filter_append_none t2 _ _ ?_)
        · intro n hn
          rcases List.mem_singleton.mp hn with rfl
          simpa [Note.tenantOf] using hne'
        · intro n hn
          rcases List.mem_map.mp hn with ⟨x, _, rfl⟩
          simpa [Note.tenantOf] using hne'
    · rw [if_neg hr]
  | reject a sid k =>
    have hne' : a ≠ t2 := hne
    simp only [stepOp, applyOp]
    rcases hf : findSession s a sid with _ | ss <;> simp only [hf]
    by_cases hr : (ss.st == SessState.ringing) = true
    · rw [if_pos hr]
      refine TenantView.ext rfl ?_ rfl rfl rfl rfl rfl
      refine map_filter_frame _ _ _ ?_ ?_
      · intro x hx
        have hxa : (x.tenant == a) = false := by
          have hxt : x.tenant = t2 := beq_iff_eq.mp hx
          simp [hxt, Ne.symm hne']
        rw [if_neg (by simp [hxa])]
      · intro x
        by_cases hc : (x.tenant == a && x.sid == sid) = true <;> simp [hc]
    · rw [if_neg hr]
  | terminate a sid byEp reason =>
    have hne' : a ≠ t2 := hne
    simp only [stepOp, applyOp]
    rcases hf : findSession s a sid with _ | ss <;> simp only [hf]
    by_cases ht : ss.st.isTerminal = true
    · rw [if_pos ht]
    · rw [if_neg ht]
      refine TenantView.ext rfl ?_ rfl rfl rfl rfl ?_
      · refine map_filter_frame _ _ _ ?_ ?_
        · intro x hx
          have hxa : (x.tenant == a) = false := by
            have hxt : x.tenant = t2 := beq_iff_eq.mp hx
            simp [hxt, Ne.symm hne']
          rw [if_neg (by simp [hxa])]
        · intro x
          by_cases hc : (x.tenant == a && x.sid == sid) = true <;> simp [hc]
      · refine notes_filter_append_none t2 _ _ ?_
        intro n hn
        rcases List.mem_map.mp hn with ⟨x, _, rfl⟩
        simpa [Note.tenantOf] using hne'
  | report b d2 sev pp =>
    have hne' : b ≠ t2 := hne
    simp only [stepOp, applyOp]
    by_cases hp : presentB s b d2 = true
    · rw [if_pos hp]
      refine TenantView.ext rfl rfl rfl ?_ ?_ rfl ?_
      · show (_ :: s.events).filter (fun ev => ev.tenant == t2)
            = s.events.filter (fun ev => ev.tenant == t2)
        rw [List.filter_cons, if_neg (by simp [hne'])]
      · exact getC_setC_ne _ _ _ _ (Ne.symm hne')
      · refine notes_filter_append_none t2 _ _ ?_
        intro n hn
        rcases List.mem_map.mp hn with ⟨x, _, rfl⟩
        simpa [Note.tenantOf] using hne'
    · rw [if_neg hp]
  | acknowledge a e o =>
    have hne' : a ≠ t2 := hne
    refine TenantView.ext rfl rfl rfl ?_ rfl rfl rfl
    refine map_filter_frame _ _ _ ?_ ?_
    · intro x hx
      have hxa : (x.tenant == a) = false := by
        have hxt : x.tenant = t2 := beq_iff_eq.mp hx
        simp [hxt, Ne.symm hne']
      rw [if_neg (by simp [hxa])]
    · intro x
      by_cases hc : (x.tenant == a && x.evId == e && !(x.acks.contains o)) = true
      · rw [if_pos hc]
      · rw [if_neg hc]

end Intercom

namespace Intercom

theorem presentB_eq_view (s : CoreState) (a i : String) :
    presentB s a i = ((s.view a).registry).any (fun e => e.epId == i) :=
  (any_filter' s.registry (fun e => e.tenant == a) (fun e => e.epId == i)).symm

theorem findSession_eq_view (s : CoreState) (a : String) (sid : Nat) :
    findSession s a sid = ((s.view a).sessions).find? (fun x => x.sid == sid) :=
  (find?_filter' s.sessions (fun x => x.tenant == a) (fun x => x.sid == sid)).symm

/-- Modelled from the spec: the same step function computed only from
the requester's tenant view. Its existence (the simulation below) is
the non-interference content of the Tenant Router contract. -/
def viewApply (op : Op) (v : TenantView) : TenantView × Res :=
  match op with
  | Op.register a i k caps ts =>
    ({ v with registry :=
        ⟨i, a, k, caps, ts⟩ :: v.registry.filter (fun e => !(e.epId == i)) },
     Res.ok)
  | Op.heartbeat a i ts =>
    ({ v with registry := v.registry.map (fun e =>
        if e.tenant == a && e.epId == i then { e with lastHb := ts } else e) },
     Res.ok)
  | Op.deregister a i =>
    ({ v with registry := v.registry.filter (fun e => !(e.tenant == a && e.epId == i)) },
     Res.ok)
  | Op.listByTenant _ kf =>
    (v, Res.okList (v.registry.filter (fun e =>
        match kf with
        | none => true
        | some k => e.kind == k)))
  | Op.initiate a c callees offer =>
    if v.registry.any (fun e => e.epId == c) then
      let reach := callees.filter (fun k => v.registry.any (fun e => e.epId == k))
      if reach.isEmpty then (v, Res.err ErrCode.noReachableCallee)
      else
        ({ v with
            sessions := ⟨v.sidC, a, c, reach, reach, none, SessState.ringing, offer, none, none⟩ :: v.sessions,
            sidC := v.sidC + 1,
            notes := v.notes ++ reach.map (fun k => Note.invite a k v.sidC offer) },
         Res.okSession v.sidC)
    else (v, Res.err ErrCode.callerOffline)
  | Op.accept a sid k ans =>
    match v.sessions.find? (fun x => x.sid == sid) with
    | none => (v, Res.err ErrCode.sessionNotRinging)
    | some ss =>
      if ss.st == SessState.ringing then
        ({ v with
            sessions := v.sessions.map (fun x =>
              if x.tenant == a && x.sid == sid then
                { x with st := SessState.active, acceptedBy := some k,
                         pending := [], answer := some ans }
              else x),
            notes := v.notes
              ++ (ss.invited.filter (fun j => !(j == k))).map (fun j => Note.cancelInvite a j sid)
              ++ [Note.acceptedNote a ss.caller sid ans] },
         Res.ok)
      else (v, Res.err ErrCode.sessionNotRinging)
  | Op.reject a sid k =>
    match v.sessions.find? (fun x => x.sid == sid) with
    | none => (v, Res.err ErrCode.sessionNotRinging)
    | some ss =>
      if ss.st == SessState.ringing then
        let pend := ss.pending.filter (fun j => !(j == k))
        ({ v with sessions := v.sessions.map (fun x =>
            if x.tenant == a && x.sid == sid then
              { x with pending := pend,
                       st := if pend.isEmpty then SessState.failed else SessState.ringing,
                       reason := if pend.isEmpty then some "AllRejected" else x.reason }
            else x) },
         Res.ok)
      else (v, Res.err ErrCode.sessionNotRinging)
  | Op.terminate a sid byEp reason =>
    match v.sessions.find? (fun x => x.sid == sid) with
    | none => (v, Res.ok)
    | some ss =>
      if ss.st.isTerminal then (v, Res.ok)
      else
        ({ v with
            sessions := v.sessions.map (fun x =>
              if x.tenant == a && x.sid == sid then
                { x with st := SessState.terminated, reason := some reason, pending := [] }
              else x),
            notes := v.notes
              ++ ((ss.caller :: ss.invited).filter (fun j => !(j == byEp))).map
                  (fun j => Note.terminatedNote a j sid reason) },
         Res.ok)
  | Op.report a d sev payload =>
    if v.registry.any (fun e => e.epId == d) then
      ({ v with
          events := ⟨v.eidC, a, d, sev, payload, []⟩ :: v.events,
          eidC := v.eidC + 1,
          notes := v.notes ++ v.subs.map (fun sub =>
              Note.alarm a sub.subscriber d v.eidC sev payload) },
       Res.okEvent v.eidC)
    else (v, Res.err ErrCode.unknownDevice)
  | Op.acknowledge a e o =>
    ({ v with events := v.events.map (fun ev =>
        if ev.tenant == a && ev.evId == e && !(ev.acks.contains o) then
          { ev with acks := o :: ev.acks }
        else ev) },
     Res.ok)

end Intercom


namespace Intercom

theorem view_sim (op : Op) (s : CoreState) :
    (stepOp s op).view op.auth = (viewApply op (s.view op.auth)).1 ∧
    resOp s op = (viewApply op (s.view op.auth)).2 := by
  cases op with
  | register a i k caps ts =>
    refine ⟨?_, rfl⟩
    refine TenantView.ext ?_ rfl rfl rfl rfl rfl rfl
    show (⟨i, a, k, caps, ts⟩ :: s.registry.filter (fun e => !(e.epId == i))).filter
          (fun e => e.tenant == a)
        = ⟨i, a, k, caps, ts⟩ ::
          (s.registry.filter (fun e => e.tenant == a)).filter (fun e => !(e.epId == i))
    rw [List.filter_cons, if_pos (by simp), filter_comm']
  | heartbeat a i ts =>
    refine ⟨?_, rfl⟩
    refine TenantView.ext ?_ rfl rfl rfl rfl rfl rfl
    refine map_filter_comm _ _ _ ?_
    intro x
    by_cases hc : (x.tenant == a && x.epId == i) = true
    · rw [if_pos hc]
    · rw [if_neg hc]
  | deregister a i =>
    refine ⟨?_, rfl⟩
    refine TenantView.ext ?_ rfl rfl rfl rfl rfl rfl
    exact filter_comm' s.registry (fun e => !(e.tenant == a && e.epId == i))
      (fun e => e.tenant == a)
  | listByTenant a kf => exact ⟨rfl, rfl⟩
  | initiate a c callees offer =>
    simp only [Op.auth]
    have hpc : presentB s a c = (s.view a).registry.any (fun e => e.epId == c) :=
      presentB_eq_view s a c
    have hreach : callees.filter (fun k => presentB s a k)
        = callees.filter (fun k => (s.view a).registry.any (fun e => e.epId == k)) :=
      List.filter_congr (fun k _ => presentB_eq_view s a k)
    by_cases hp : presentB s a c = true
    · have hp' : ((s.view a).registry.any (fun e => e.epId == c)) = true := by
        rw [← hpc]; exact hp
      by_cases he : (callees.filter (fun k => presentB s a k)).isEmpty = true
      · have he' : (callees.filter
            (fun k => (s.view a).registry.any (fun e => e.epId == k))).isEmpty = true := by
          rw [← hreach]; exact he
        constructor <;>
          simp only [stepOp, resOp, applyOp, viewApply, if_pos hp, if_pos hp',
            if_pos he, if_pos he']
      · have he' : ¬(callees.filter
            (fun k => (s.view a).registry.any (fun e => e.epId == k))).isEmpty = true := by
          rw [← hreach]; exact he
        constructor
        · simp only [stepOp, applyOp, viewApply, if_pos hp, if_pos hp',
            if_neg he, if_neg he']
          refine TenantView.ext rfl ?_ ?_ rfl rfl rfl ?_
          · show (_ :: s.sessions).filter (fun x => x.tenant == a) = _
            rw [List.filter_cons, if_pos (by simp), hreach]
            rfl
          · exact getC_setC_same _ _ _
          · show ((s.notes ++ _).filter (fun n => Note.tenantOf n == a)) = _
            rw [hreach]
            refine notes_filter_append_all a s.notes _ ?_
            intro n hn
            rcases List.mem_map.mp hn with ⟨x, _, rfl⟩
            rfl
        · simp only [stepOp, resOp, applyOp, viewApply, if_pos hp, if_pos hp',
            if_neg he, if_neg he']
          rfl
    · have hp' : ¬((s.view a).registry.any (fun e => e.epId == c)) = true := by
        rw [← hpc]; exact hp
      constructor <;>
        simp only [stepOp, resOp, applyOp, viewApply, if_neg hp, if_neg hp']
  | accept a sid k ans =>
    simp only [Op.auth]
    have hfs : findSession s a sid = (s.view a).sessions.find? (fun x => x.sid == sid) :=
      findSession_eq_view s a sid
    rcases hf : findSession s a sid with _ | ss
    · have hf' : (s.view a).sessions.find? (fun x => x.sid == sid) = none := by
        rw [← hfs]; exact hf
      constructor <;> simp only [stepOp, resOp, applyOp, viewApply, hf, hf']
    · have hf' : (s.view a).sessions.find? (fun x => x.sid == sid) = some ss := by
        rw [← hfs]; exact hf
      by_cases hr : (ss.st == SessState.ringing) = true
      · constructor
        · simp only [stepOp, applyOp, viewApply, hf, hf', if_pos hr]
          refine TenantView.ext rfl ?_ rfl rfl rfl rfl ?_
          · refine map_filter_comm _ _ _ ?_
            intro x
            by_cases hc : (x.tenant == a && x.sid == sid) = true
            · rw [if_pos hc]
            · rw [if_neg hc]
          · show (((s.notes ++ _) ++ _).filter (fun n => Note.tenantOf n == a)) = _
            refine (notes_filter_append_all a _ _ ?_).trans ?_
            · intro n hn
              rcases List.mem_singleton.mp hn with rfl
              rfl
            · refine congrArg (fun z => z ++ [Note.acceptedNote a ss.caller sid ans]) ?_
              refine notes_filter_append_all a s.notes _ ?_
              intro n hn
              rcases List.mem_map.mp hn with ⟨x, _, rfl⟩
              rfl
        · simp only [stepOp, resOp, applyOp, viewApply, hf, hf', if_pos hr]
      · constructor <;>
          simp only [stepOp, resOp, applyOp, viewApply, hf, hf', if_neg hr]
  | reject a sid k =>
    simp only [Op.auth]
    have hfs : findSession s a sid = (s.view a).sessions.find? (fun x => x.sid == sid) :=
      findSession_eq_view s a sid
    rcases hf : findSession s a sid with _ | ss
    · have hf' : (s.view a).sessions.find? (fun x => x.sid == sid) = none := by
        rw [← hfs]; exact hf
      constructor <;> simp only [stepOp, resOp, applyOp, viewApply, hf, hf']
    · have hf' : (s.view a).sessions.find? (fun x => x.sid == sid) = some ss := by
        rw [← hfs]; exact hf
      by_cases hr : (ss.st == SessState.ringing) = true
      · constructor
        · simp only [stepOp, applyOp, viewApply, hf, hf', if_pos hr]
          refine TenantView.ext rfl ?_ rfl rfl rfl rfl rfl
          refine map_filter_comm _ _ _ ?_
          intro x
          by_cases hc : (x.tenant == a && x.sid == sid) = true
          · rw [if_pos hc]
          · rw [if_neg hc]
        · simp only [stepOp, resOp, applyOp, viewApply, hf, hf', if_pos hr]
      · constructor <;>
          simp only [stepOp, resOp, applyOp, viewApply, hf, hf', if_neg hr]
  | terminate a sid byEp reason =>
    simp only [Op.auth]
    have hfs : findSession s a sid = (s.view a).sessions.find? (fun x => x.sid == sid) :=
      findSession_eq_view s a sid
    rcases hf : findSession s a sid with _ | ss
    · have hf' : (s.view a).sessions.find? (fun x => x.sid == sid) = none := by
        rw [← hfs]; exact hf
      constructor <;> simp only [stepOp, resOp, applyOp, viewApply, hf, hf']
    · have hf' : (s.view a).sessions.find? (fun x => x.sid == sid) = some ss := by
        rw [← hfs]; exact hf
      by_cases ht : ss.st.isTerminal = true
      · constructor <;>
          simp only [stepOp, resOp, applyOp, viewApply, hf, hf', if_pos ht]
      · constructor
        · simp only [stepOp, applyOp, viewApply, hf, hf', if_neg ht]
          refine TenantView.ext rfl ?_ rfl rfl rfl rfl ?_
          · refine map_filter_comm _ _ _ ?_
            intro x
            by_cases hc : (x.tenant == a && x.sid == sid) = true
            · rw [if_pos hc]
            · rw [if_neg hc]
          · show ((s.notes ++ _).filter (fun n => Note.tenantOf n == a)) = _
            refine notes_filter_append_all a s.notes _ ?_
            intro n hn
            rcases List.mem_map.mp hn with ⟨x, _, rfl⟩
            rfl
        · simp only [stepOp, resOp, applyOp, viewApply, hf, hf', if_neg ht]
  | report a d sev payload =>
    simp only [Op.auth]
    have hpd : presentB s a d = (s.view a).registry.any (fun e => e.epId == d) :=
      presentB_eq_view s a d
    by_cases hp : presentB s a d = true
    · have hp' : ((s.view a).registry.any (fun e => e.epId == d)) = true := by
        rw [← hpd]; exact hp
      constructor
      · simp only [stepOp, applyOp, viewApply, if_pos hp, if_pos hp']
        refine TenantView.ext rfl rfl rfl ?_ ?_ rfl ?_
        · show (_ :: s.events).filter (fun ev => ev.tenant == a) = _
          rw [List.filter_cons, if_pos (by simp)]
          rfl
        · exact getC_setC_same _ _ _
        · show ((s.notes ++ _).filter (fun n => Note.tenantOf n == a)) = _
          refine notes_filter_append_all a s.notes _ ?_
          intro n hn
          rcases List.mem_map.mp hn with ⟨x, _, rfl⟩
          rfl
      · simp only [stepOp, resOp, applyOp, viewApply, if_pos hp, if_pos hp']
        rfl
    · have hp' : ¬((s.view a).registry.any (fun e => e.epId == d)) = true := by
        rw [← hpd]; exact hp
      constructor <;>
        simp only [stepOp, resOp, applyOp, viewApply, if_neg hp, if_neg hp']
  | acknowledge a e o =>
    refine ⟨?_, rfl⟩
    refine TenantView.ext rfl rfl rfl ?_ rfl rfl rfl
    refine map_filter_comm _ _ _ ?_
    intro x
    by_cases hc : (x.tenant == a && x.evId == e && !(x.acks.contains o)) = true
    · rw [if_pos hc]
    · rw [if_neg hc]

end Intercom

namespace Intercom

/-- C1 (tenant isolation): an operation authenticated as one tenant
(i) leaves every other tenant's view of the state untouched, and
(ii) returns a result, and produces an own-tenant view, that are a
function of the requester's own tenant view alone — two states agreeing
on the requester's view give the same result and the same new view.
For `register`, the side condition is the authentication collaborator's
guarantee that the globally unique endpoint id is not currently held by
a different tenant. -/
theorem tenant_isolation (op : Op) (s sAlt : CoreState) (t2 : String)
    (hne : op.auth ≠ t2) (hrs : RegisterSafe op s)
    (hagree : s.view op.auth = sAlt.view op.auth) :
    (stepOp s op).view t2 = s.view t2 ∧
    resOp s op = resOp sAlt op ∧
    (stepOp s op).view op.auth = (stepOp sAlt op).view op.auth :=
  ⟨view_frame op s t2 hne hrs,
   by rw [(view_sim op s).2, (view_sim op sAlt).2, hagree],
   by rw [(view_sim op s).1, (view_sim op sAlt).1, hagree]⟩

/-- A state with one tenant-A endpoint and one tenant-B endpoint. -/
def isoS : CoreState :=
  ⟨[⟨"x", "A", EpKind.device, [], 0⟩, ⟨"y", "B", EpKind.device, [], 0⟩],
   [], [], [], [], [], []⟩

/-- A state agreeing with `isoS` on tenant A but not on tenant B. -/
def isoSAlt : CoreState :=
  ⟨[⟨"x", "A", EpKind.device, [], 0⟩], [], [], [], [], [], []⟩

theorem tenant_isolation_witness :
    (stepOp isoS (Op.register "A" "x" EpKind.device [] 1)).view "B" = isoS.view "B" ∧
    resOp isoS (Op.register "A" "x" EpKind.device [] 1)
      = resOp isoSAlt (Op.register "A" "x" EpKind.device [] 1) ∧
    (stepOp isoS (Op.register "A" "x" EpKind.device [] 1)).view
        (Op.register "A" "x" EpKind.device [] 1).auth
      = (stepOp isoSAlt (Op.register "A" "x" EpKind.device [] 1)).view
        (Op.register "A" "x" EpKind.device [] 1).auth :=
  tenant_isolation (Op.register "A" "x" EpKind.device [] 1) isoS isoSAlt "B"
    (by decide) (by unfold RegisterSafe; decide) (by decide)

end Intercom
